import Mathlib

/-!
# Verification of the `paint-2d` terminal painting program

A shallow embedding of `src/main.rs` of the `paint-2d` repository: a
terminal-resident 2D painting surface.  The `u16` coordinates of the Rust
source are modelled as `Nat`; Rust's `u16` subtraction appears in the source
only under guards that make it non-negative (within the preconditions used
below), and is modelled by truncated `Nat` subtraction.  Rust's panicking
index assignment `canvas[col][row] = v` is modelled by an `Option`-returning
update (`none` models the panic).  Terminal I/O is modelled by lists of
abstract commands, mirroring the sequence of `execute` calls of the source.
-/

/-- The colors the program mentions: `Color::White` (the paint color set in
`PaintCursor::new`), `Color::DarkGrey` (cursor glyph), plus further variants
so that the color type is not degenerate. -/
inductive PColor where
  | white
  | darkGrey
  | red
  | black
  deriving DecidableEq, Repr

/-- `struct PaintCursor` of the source: a position (`row`, `col`), the extent
it wraps in (`screen_rows`, `screen_cols`), and the current paint color. -/
structure PaintCursor where
  row : Nat
  col : Nat
  screen_rows : Nat
  screen_cols : Nat
  color : PColor
  deriving DecidableEq, Repr

namespace PaintCursor

/-- `PaintCursor::new(row, col, screen_size)`: note `screen_cols` is taken
from `screen_size.0` and `screen_rows` from `screen_size.1`, and the paint
color starts as `Color::White`. -/
def new (row col : Nat) (screen_size : Nat × Nat) : PaintCursor :=
  { row := row
    col := col
    screen_cols := screen_size.1
    screen_rows := screen_size.2
    color := PColor.white }

/-- `PaintCursor::left(by)`: move `d` cells left on `row`, wrapping at 0
against `screen_cols`. -/
def left (c : PaintCursor) (d : Nat) : PaintCursor :=
  if d ≤ c.row then
    { c with row := c.row - d }
  else
    let underflow := d - c.row
    { c with row := c.screen_cols - underflow }

/-- `PaintCursor::right(by)`: move `d` cells right on `row`, wrapping at
`screen_cols`. -/
def right (c : PaintCursor) (d : Nat) : PaintCursor :=
  if c.row < c.screen_cols - d then
    { c with row := c.row + d }
  else
    let overflow := d - (c.screen_cols - c.row)
    { c with row := 0 + overflow }

/-- `PaintCursor::up(by)`: move `d` cells up on `col`, wrapping at 0 against
`screen_rows`. -/
def up (c : PaintCursor) (d : Nat) : PaintCursor :=
  if d ≤ c.col then
    { c with col := c.col - d }
  else
    let underflow := d - c.col
    { c with col := c.screen_rows - underflow }

/-- `PaintCursor::down(by)`: move `d` cells down on `col`, wrapping at
`screen_rows`. -/
def down (c : PaintCursor) (d : Nat) : PaintCursor :=
  if c.col < c.screen_rows - d then
    { c with col := c.col + d }
  else
    let overflow := d - (c.screen_rows - c.col)
    { c with col := 0 + overflow }

/-- `PaintCursor::set_canvas_size(size)`: updates only the bounds used for
wrap calculations; the position is left untouched. -/
def set_canvas_size (c : PaintCursor) (size : Nat × Nat) : PaintCursor :=
  { c with screen_cols := size.1, screen_rows := size.2 }

end PaintCursor

/-- A canvas: `Vec<Vec<Option<Color>>>` of the source, outer index `col`
(terminal row), inner index `row` (terminal column). -/
abbrev Canvas := List (List (Option PColor))

/-- Checked read of `canvas[col][row]`: `none` when either index is out of
bounds. -/
def Canvas.cell? (cv : Canvas) (col row : Nat) : Option (Option PColor) :=
  (cv.get? col).bind fun r => r.get? row

/-- Rust's `canvas[col][row] = v`, which panics when either index is out of
bounds; the panic is modelled as `none`. -/
def Canvas.setCell? (cv : Canvas) (col row : Nat) (v : Option PColor) :
    Option Canvas :=
  match cv.get? col with
  | none => none
  | some r => if row < r.length then some (cv.set col (r.set row v)) else none

/-- `struct Paint2D` of the source, without the `stdout` handle (terminal
output is modelled separately as pure command lists).  `terminal_size` is the
`(cols, rows)` pair returned by the terminal. -/
structure Paint2D where
  running : Bool
  cursor : PaintCursor
  terminal_size : Nat × Nat
  color_canvas : Canvas
  deriving DecidableEq, Repr

/-- `Paint2D::new(terminal_size)`: the canvas extent is the terminal extent
with one row reserved (`terminal_size.1 - 1` rows of `terminal_size.0`
columns), the cursor starts at `(0, 0)` bound to that extent, and `running`
starts `true`. -/
def Paint2D.new (terminal_size : Nat × Nat) : Paint2D :=
  let canvas_size : Nat × Nat := (terminal_size.1, terminal_size.2 - 1)
  { running := true
    cursor := PaintCursor.new 0 0 canvas_size
    terminal_size := terminal_size
    color_canvas := List.replicate canvas_size.2 (List.replicate canvas_size.1 none) }

/-- The key codes the `run` loop's `match` distinguishes: `'q'`, `'c'`, the
four arrow keys, `' '` (paint), and a stand-in for every other key, which the
wildcard arm ignores. -/
inductive PKey where
  | q
  | c
  | left
  | right
  | up
  | down
  | space
  | otherKey
  deriving DecidableEq, Repr

/-- The events the `run` loop's `match` distinguishes: key presses (with the
CONTROL-modifier flag), resize events, and a stand-in for every other event,
which the wildcard arm ignores. -/
inductive PEvent where
  | key (code : PKey) (ctrl : Bool)
  | resize (cols rows : Nat)
  | other
  deriving DecidableEq, Repr

/-- One iteration of the inner `match event::read()` of `Paint2D::run`:
applies a single event to the state.  `none` models the panic of the paint
arm's unchecked indexing `self.color_canvas[col][row]`. -/
def processEvent (s : Paint2D) (e : PEvent) : Option Paint2D :=
  match e with
  | .key .q _ => some { s with running := false }
  | .key .c ctrl =>
      if ctrl then some { s with running := false } else some s
  | .key .left ctrl =>
      let movement := if ctrl then 8 else 1
      some { s with cursor := s.cursor.left movement }
  | .key .right ctrl =>
      let movement := if ctrl then 8 else 1
      some { s with cursor := s.cursor.right movement }
  | .key .up ctrl =>
      let movement := if ctrl then 2 else 1
      some { s with cursor := s.cursor.up movement }
  | .key .down ctrl =>
      let movement := if ctrl then 2 else 1
      some { s with cursor := s.cursor.down movement }
  | .key .space _ =>
      (s.color_canvas.setCell? s.cursor.col s.cursor.row
          (some s.cursor.color)).map
        fun cv => { s with color_canvas := cv }
  | .key .otherKey _ => some s
  | .resize cols rows =>
      some { s with
              terminal_size := (cols, rows)
              cursor := s.cursor.set_canvas_size (cols, rows - 1) }
  | .other => some s

/-- The inner `while event::poll(..)` loop of `Paint2D::run`: drains one
batch of pending events in arrival order.  Note the source does not re-check
`running` between events of a batch. -/
def processBatch : Paint2D → List PEvent → Option Paint2D
  | s, [] => some s
  | s, e :: es =>
      match processEvent s e with
      | none => none
      | some s2 => processBatch s2 es

/-- The outer `while self.running.load(..)` loop of `Paint2D::run`, with the
event batches each `poll` round delivers made explicit: while `running`,
drain the pending batch (then redraw, which does not change this state) and
continue; once `running` is `false` the loop exits with the state as is. -/
def run : Paint2D → List (List PEvent) → Option Paint2D
  | s, [] => some s
  | s, b :: bs =>
      if s.running then
        match processBatch s b with
        | none => none
        | some s2 => run s2 bs
      else some s

/-- The engine states reachable from some initial state by successfully
processed events (a superset of the states the `run` loop visits, since it
does not require `running` to stay `true`). -/
inductive Reachable : Paint2D → Prop
  | init (ts : Nat × Nat) : Reachable (Paint2D.new ts)
  | step {s s2 : Paint2D} {e : PEvent} :
      Reachable s → processEvent s e = some s2 → Reachable s2

/-- The output primitives `redraw_screen` and `draw_cursor` issue, one
constructor per `crossterm` command the source executes. -/
inductive RenderCmd where
  | clearAll
  | moveTo (x y : Nat)
  | setForeground (c : PColor)
  | setBackground (c : PColor)
  | printStr (s : String)
  | resetColor
  deriving DecidableEq, Repr

/-- The first argument of `cursor::MoveTo` in `draw_cursor`: the source
computes `row = cursor.row as i32 - 1` and converts it back with
`try_into().unwrap_or(0)`, which yields 0 whenever the value does not fit in
a `u16` (for `row` in `u16` range that happens exactly when it is negative,
i.e. when `cursor.row = 0`). -/
def cursorGlyphCol (row : Nat) : Nat :=
  let r : Int := (row : Int) - 1
  if r < 0 ∨ 65535 < r then 0 else r.toNat

/-- `Paint2D::draw_cursor`: prints `├X┤` starting one cell left of the
cursor, the brackets in dark grey. -/
def Paint2D.draw_cursor (s : Paint2D) : List RenderCmd :=
  [RenderCmd.moveTo (cursorGlyphCol s.cursor.row) s.cursor.col,
   RenderCmd.setForeground PColor.darkGrey,
   RenderCmd.printStr "├",
   RenderCmd.resetColor,
   RenderCmd.printStr "X",
   RenderCmd.setForeground PColor.darkGrey,
   RenderCmd.printStr "┤",
   RenderCmd.resetColor]

/-- The body of the inner cell loop of `redraw_screen`: read
`color_canvas[r][c]` through checked access (`None` if out of bounds or
transparent); a colored cell prints a space over its background color, an
empty one prints a plain space. -/
def cellCmds (cv : Canvas) (r c : Nat) : List RenderCmd :=
  let color : Option PColor := ((cv.get? r).bind fun row => row.get? c).join
  match color with
  | some color =>
      [RenderCmd.setBackground color, RenderCmd.printStr " ",
       RenderCmd.resetColor]
  | none => [RenderCmd.printStr " "]

/-- `Paint2D::redraw_screen`: clear the screen, then for each terminal row
`r < terminal_size.1 - 1` move to its start and print its
`terminal_size.0` cells, then draw the cursor glyph. -/
def Paint2D.redraw_screen (s : Paint2D) : List RenderCmd :=
  [RenderCmd.clearAll, RenderCmd.moveTo 0 0] ++
    ((List.range (s.terminal_size.2 - 1)).flatMap fun r =>
      RenderCmd.moveTo 0 r ::
        (List.range s.terminal_size.1).flatMap fun c =>
          cellCmds s.color_canvas r c) ++
    s.draw_cursor

/-- `redraw_screen` as a step on the engine state: it returns the frame it
renders together with the state it leaves behind, which — since the Rust
method writes only to `stdout` and reads every other field — is the state it
was given, field by field. -/
def redrawStep (s : Paint2D) : List RenderCmd × Paint2D :=
  (s.redraw_screen,
   { running := s.running
     cursor := s.cursor
     terminal_size := s.terminal_size
     color_canvas := s.color_canvas })

/-- The terminal-control commands `setup` and `Drop` execute. -/
inductive TermCmd where
  | enableRawMode
  | disableRawMode
  | enterAlternateScreen
  | leaveAlternateScreen
  | setCursorStyleSteadyUnderScore
  | setCursorStyleDefaultUserShape
  | cursorMoveTo (x y : Nat)
  | cursorHide
  | cursorShow
  deriving DecidableEq, Repr

/-- `Paint2D::setup`: enables raw mode, enters the alternate screen, styles
and hides the cursor. -/
def setupCmds : List TermCmd :=
  [TermCmd.enableRawMode,
   TermCmd.enterAlternateScreen,
   TermCmd.setCursorStyleSteadyUnderScore,
   TermCmd.cursorMoveTo 0 0,
   TermCmd.cursorHide]

/-- `impl Drop for Paint2D`: disables raw mode, shows the cursor and restores
its default shape.  The source's `LeaveAlternateScreen` line is commented
out, so no such command is executed. -/
def dropCmds : List TermCmd :=
  [TermCmd.disableRawMode,
   TermCmd.cursorShow,
   TermCmd.setCursorStyleDefaultUserShape]

/-- The ways the process can exit: a normal quit (`run` returned after the
quit key), an interrupt (Ctrl+C observed by the event loop), or a terminal
I/O error propagated out of `setup` or `run`. -/
inductive ExitPath where
  | normalQuit
  | interrupt
  | ioError
  deriving DecidableEq, Repr

/-- The terminal-control commands executed on the way out of `main` on a
given exit path: Rust runs `Paint2D`'s `Drop` implementation on every one of
them (normal return from `main` and early `?`-propagated error alike), so
each path executes exactly `dropCmds`. -/
def exitCmds (_ : ExitPath) : List TermCmd := dropCmds

/-! ## Concrete example states and event sequences -/

/-- A cursor at `row = 2` in a `10 × 10` wrap extent. -/
def cursorAtRow2 : PaintCursor :=
  { row := 2, col := 0, screen_rows := 10, screen_cols := 10, color := PColor.white }

/-- A cursor at `row = 8` in a `10 × 10` wrap extent. -/
def cursorAtRow8 : PaintCursor :=
  { row := 8, col := 0, screen_rows := 10, screen_cols := 10, color := PColor.white }

/-- The state the engine is in after a Ctrl+Right (distance 8) followed by a
resize to `(3, 5)`, starting from a `(10, 10)` terminal: the cursor sits at
`row = 8` while its wrap extent has shrunk to `screen_cols = 3`. -/
def outOfRangeAfterShrink : Paint2D :=
  { running := true
    cursor := { row := 8, col := 0, screen_rows := 4, screen_cols := 3,
                color := PColor.white }
    terminal_size := (3, 5)
    color_canvas := List.replicate 9 (List.replicate 10 none) }

/-- The state between the two events of `resize_leaves_cursor_out_of_range`:
`Paint2D.new (10, 10)` after Ctrl+Right. -/
def stateBeforeShrink : Paint2D :=
  { running := true
    cursor := { row := 8, col := 0, screen_rows := 9, screen_cols := 10,
                color := PColor.white }
    terminal_size := (10, 10)
    color_canvas := List.replicate 9 (List.replicate 10 none) }

/-- Move the cursor to `(row 2, col 3)`, paint, shrink the terminal to
`(1, 1)`, then grow it back to `(10, 10)`. -/
def paintShrinkGrowEvents : List PEvent :=
  [PEvent.key PKey.right false, PEvent.key PKey.right false,
   PEvent.key PKey.down false, PEvent.key PKey.down false,
   PEvent.key PKey.down false, PEvent.key PKey.space false,
   PEvent.resize 1 1, PEvent.resize 10 10]

/-- Grow the terminal from `(2, 2)` to `(5, 5)`, take one Ctrl+Down step
(distance 2), then paint. -/
def panicEvents : List PEvent :=
  [PEvent.resize 5 5, PEvent.key PKey.down true, PEvent.key PKey.space false]

/-- The initial `(2, 2)` engine state with `running` already driven to
`false`. -/
def stoppedState : Paint2D :=
  { Paint2D.new (2, 2) with running := false }

/-! ## Helper lemmas -/

theorem emod_eq_add_of_neg (a n : Int) (h1 : -n ≤ a) (h2 : a < 0) :
    a % n = a + n := by
  have h3 : (a + n) % n = a % n := by
    simp
  rw [← h3, Int.emod_eq_of_lt (by omega) (by omega)]

theorem emod_eq_sub_of_ge (a n : Int) (h1 : n ≤ a) (h2 : a < 2 * n) :
    a % n = a - n := by
  have h3 : (a - n) % n = a % n := by
    simp
  rw [← h3, Int.emod_eq_of_lt (by omega) (by omega)]

/-! ## Claims -/

/-- C1: for every cursor position with `0 ≤ position < extent`, every extent
`≥ 1`, and every positive distance `≤ extent`, `left`/`right` (on `row`,
bound `screen_cols`) and `up`/`down` (on `col`, bound `screen_rows`) set the
new position to `(position - distance) mod extent` for left/up and
`(position + distance) mod extent` for right/down, with non-negative
(Euclidean) modulo semantics. -/
theorem moves_are_mod_arithmetic (c : PaintCursor) (d : Nat)
    (hrow : c.row < c.screen_cols) (hcol : c.col < c.screen_rows)
    (hd : 1 ≤ d) (hdc : d ≤ c.screen_cols) (hdr : d ≤ c.screen_rows) :
    ((c.left d).row : Int) = ((c.row : Int) - (d : Int)) % (c.screen_cols : Int)
    ∧ ((c.right d).row : Int) = ((c.row : Int) + (d : Int)) % (c.screen_cols : Int)
    ∧ ((c.up d).col : Int) = ((c.col : Int) - (d : Int)) % (c.screen_rows : Int)
    ∧ ((c.down d).col : Int) = ((c.col : Int) + (d : Int)) % (c.screen_rows : Int) := by
  refine ⟨?_, ?_, ?_, ?_⟩
  · unfold PaintCursor.left
    split
    · rename_i h
      rw [Int.emod_eq_of_lt (by omega) (by omega)]
      dsimp only
      omega
    · rename_i h
      rw [emod_eq_add_of_neg _ _ (by omega) (by omega)]
      dsimp only
      omega
  · unfold PaintCursor.right
    split
    · rename_i h
      rw [Int.emod_eq_of_lt (by omega) (by omega)]
      dsimp only
      omega
    · rename_i h
      rw [emod_eq_sub_of_ge _ _ (by omega) (by omega)]
      dsimp only
      omega
  · unfold PaintCursor.up
    split
    · rename_i h
      rw [Int.emod_eq_of_lt (by omega) (by omega)]
      dsimp only
      omega
    · rename_i h
      rw [emod_eq_add_of_neg _ _ (by omega) (by omega)]
      dsimp only
      omega
  · unfold PaintCursor.down
    split
    · rename_i h
      rw [Int.emod_eq_of_lt (by omega) (by omega)]
      dsimp only
      omega
    · rename_i h
      rw [emod_eq_sub_of_ge _ _ (by omega) (by omega)]
      dsimp only
      omega

/-- C1 witness: with extent 10 and `row = 2`, `left 5` yields `row = 7` and
matches `(2 - 5) mod 10`; with `row = 8`, `right 5` yields `row = 3` and
matches `(8 + 5) mod 10`. -/
theorem moves_are_mod_arithmetic_witness :
    ((cursorAtRow2.left 5).row = 7
      ∧ ((cursorAtRow2.left 5).row : Int) = ((2 : Int) - 5) % 10)
    ∧ ((cursorAtRow8.right 5).row = 3
      ∧ ((cursorAtRow8.right 5).row : Int) = ((8 : Int) + 5) % 10) := by
  refine ⟨⟨by decide, ?_⟩, by decide, ?_⟩
  · exact (moves_are_mod_arithmetic cursorAtRow2 5 (by decide) (by decide)
      (by decide) (by decide) (by decide)).1
  · exact (moves_are_mod_arithmetic cursorAtRow8 5 (by decide) (by decide)
      (by decide) (by decide) (by decide)).2.1

/-- C2 (amended): every directional move with positive distance at most the
extent preserves the cursor invariant `row < screen_cols ∧ col < screen_rows`
(movement wraps); the resize arm, by contrast, only updates the bounds and
does not relocate the cursor (see `resize_leaves_cursor_out_of_range`). -/
theorem moves_preserve_cursor_invariant (c : PaintCursor) (d : Nat)
    (hrow : c.row < c.screen_cols) (hcol : c.col < c.screen_rows)
    (hd : 1 ≤ d) (hdc : d ≤ c.screen_cols) (hdr : d ≤ c.screen_rows) :
    ((c.left d).row < (c.left d).screen_cols ∧ (c.left d).col < (c.left d).screen_rows)
    ∧ ((c.right d).row < (c.right d).screen_cols ∧ (c.right d).col < (c.right d).screen_rows)
    ∧ ((c.up d).row < (c.up d).screen_cols ∧ (c.up d).col < (c.up d).screen_rows)
    ∧ ((c.down d).row < (c.down d).screen_cols ∧ (c.down d).col < (c.down d).screen_rows) := by
  unfold PaintCursor.left PaintCursor.right PaintCursor.up PaintCursor.down
  refine ⟨?_, ?_, ?_, ?_⟩ <;>
    · split <;>
        · rename_i h
          dsimp only
          omega

/-- C2 witness: the amended preservation theorem applied to the cursor at
`row = 2` in a `10 × 10` extent with distance 5. -/
theorem moves_preserve_cursor_invariant_witness :
    (cursorAtRow2.left 5).row < (cursorAtRow2.left 5).screen_cols
    ∧ (cursorAtRow2.left 5).col < (cursorAtRow2.left 5).screen_rows :=
  (moves_preserve_cursor_invariant cursorAtRow2 5 (by decide) (by decide)
    (by decide) (by decide) (by decide)).1

/-- C2 counterexample: a reachable engine state (also reached by the `run`
loop itself) whose cursor is out of range of the current extent — the resize
arm does not wrap the cursor back into the new bound. -/
theorem resize_leaves_cursor_out_of_range :
    Reachable outOfRangeAfterShrink
    ∧ run (Paint2D.new (10, 10))
        [[PEvent.key PKey.right true, PEvent.resize 3 5]]
        = some outOfRangeAfterShrink
    ∧ outOfRangeAfterShrink.cursor.screen_cols ≤ outOfRangeAfterShrink.cursor.row := by
  refine ⟨?_, by decide, by decide⟩
  exact Reachable.step
    (@Reachable.step (Paint2D.new (10, 10)) stateBeforeShrink
      (PEvent.key PKey.right true) (Reachable.init (10, 10)) (by decide))
    (e := PEvent.resize 3 5) (by decide)

/-- C3 counterexample: starting from a `(10, 10)` terminal, paint cell
`(row 2, col 3)`, shrink to `(1, 1)` and grow back; the canvas still has its
original 9 rows immediately after the shrink (the grid is not resized), and
after growing back the painted cell still reads `White` rather than empty —
no content was dropped. -/
theorem resize_does_not_resize_grid :
    (processBatch (Paint2D.new (10, 10)) (paintShrinkGrowEvents.take 7)).map
        (fun s => s.color_canvas.length) = some 9
    ∧ (processBatch (Paint2D.new (10, 10)) paintShrinkGrowEvents).map
        (fun s => s.color_canvas.cell? 3 2) = some (some (some PColor.white)) := by
  exact ⟨by decide, by decide⟩

/-- C3 (amended): processing a viewport-resize event does not touch the
color grid at all — it only records the new terminal size and updates the
cursor's wrap bounds; the grid keeps its dimensions and all its contents, so
out-of-extent content is retained (merely not rendered) and reappears with
its old color once the extent grows back. -/
theorem resize_updates_only_size_and_bounds (s : Paint2D) (cols rows : Nat) :
    processEvent s (PEvent.resize cols rows)
      = some { s with terminal_size := (cols, rows),
                      cursor := s.cursor.set_canvas_size (cols, rows - 1) }
    ∧ ({ s with terminal_size := (cols, rows),
                cursor := s.cursor.set_canvas_size (cols, rows - 1) } : Paint2D).color_canvas
      = s.color_canvas :=
  ⟨rfl, rfl⟩

/-- C4: event processing is not total — after a resize grows the cursor's
bounds beyond the (never-resized) canvas, the paint arm's unchecked indexing
`self.color_canvas[col][row]` is out of bounds: starting from a `(2, 2)`
terminal (canvas of 1 row), growing to `(5, 5)`, moving Ctrl+Down to
`col = 2` and painting indexes row 2 of a 1-row canvas, which panics
(modelled as `none`). -/
theorem paint_after_grow_resize_panics :
    run (Paint2D.new (2, 2)) [panicEvents] = none := by decide

theorem get?_set_self_of_lt {α : Type} (l : List α) (i : Nat) (a : α)
    (h : i < l.length) : (l.set i a).get? i = some a := by
  rw [List.get?_eq_getElem?]
  rw [List.getElem?_set_self']
  rw [List.getElem?_eq_getElem h]
  rfl

theorem get?_set_of_ne {α : Type} (l : List α) (i j : Nat) (a : α)
    (h : i ≠ j) : (l.set i a).get? j = l.get? j := by
  rw [List.get?_eq_getElem?, List.get?_eq_getElem?, List.getElem?_set_ne h]

theorem length_pos_of_get?_eq_some {α : Type} (l : List α) (n : Nat) (a : α)
    (h : l.get? n = some a) : n < l.length := by
  rw [List.get?_eq_getElem?] at h
  exact (List.getElem?_eq_some.mp h).1

theorem replicate_cell_empty (n w i j : Nat) :
    ((List.replicate n (List.replicate w (none : Option PColor))).get? i).bind
        (fun r => r.get? j) = none
    ∨ ((List.replicate n (List.replicate w (none : Option PColor))).get? i).bind
        (fun r => r.get? j) = some none := by
  rcases Nat.lt_or_ge i n with hi | hi
  · rcases Nat.lt_or_ge j w with hj | hj
    · right
      simp [List.get?_eq_getElem?, List.getElem?_replicate, hi, hj]
    · left
      simp [List.get?_eq_getElem?, List.getElem?_replicate, hi,
        show ¬ j < w by omega]
  · left
    simp [List.get?_eq_getElem?, List.getElem?_replicate, show ¬ i < n by omega]

/-- C5: when the cursor's cell exists in the canvas, painting (the space
key) sets exactly `canvas[cursor.col][cursor.row]` to `some current_color`:
reading that cell afterwards returns the painted color, every other cell is
unchanged, and every cell of a freshly allocated canvas reads as empty
(`none`, possibly reported as out of bounds). -/
theorem paint_sets_exactly_cursor_cell (s : Paint2D) (m : Bool)
    (r : List (Option PColor))
    (hcol : s.color_canvas.get? s.cursor.col = some r)
    (hrow : s.cursor.row < r.length) :
    ∃ cv : Canvas,
      processEvent s (PEvent.key PKey.space m) = some { s with color_canvas := cv }
      ∧ cv.cell? s.cursor.col s.cursor.row = some (some s.cursor.color)
      ∧ (∀ i j, i ≠ s.cursor.col ∨ j ≠ s.cursor.row →
          cv.cell? i j = s.color_canvas.cell? i j)
      ∧ (∀ ts : Nat × Nat, ∀ i j,
          (Paint2D.new ts).color_canvas.cell? i j = none
          ∨ (Paint2D.new ts).color_canvas.cell? i j = some none) := by
  have hlen : s.cursor.col < s.color_canvas.length :=
    length_pos_of_get?_eq_some _ _ _ hcol
  refine ⟨s.color_canvas.set s.cursor.col
      (r.set s.cursor.row (some s.cursor.color)), ?_, ?_, ?_, ?_⟩
  · have hstep : processEvent s (PEvent.key PKey.space m)
        = (s.color_canvas.setCell? s.cursor.col s.cursor.row
            (some s.cursor.color)).map
          (fun cv => { s with color_canvas := cv }) := rfl
    have hset : s.color_canvas.setCell? s.cursor.col s.cursor.row
        (some s.cursor.color)
        = some (s.color_canvas.set s.cursor.col
            (r.set s.cursor.row (some s.cursor.color))) := by
      unfold Canvas.setCell?
      rw [hcol]
      simp [hrow]
    rw [hstep, hset]
    rfl
  · unfold Canvas.cell?
    rw [get?_set_self_of_lt _ _ _ hlen]
    show (r.set s.cursor.row (some s.cursor.color)).get? s.cursor.row
      = some (some s.cursor.color)
    exact get?_set_self_of_lt _ _ _ hrow
  · intro i j hij
    unfold Canvas.cell?
    by_cases hi : i = s.cursor.col
    · subst hi
      have hj : j ≠ s.cursor.row := by tauto
      rw [get?_set_self_of_lt _ _ _ hlen, hcol]
      show (r.set s.cursor.row (some s.cursor.color)).get? j = r.get? j
      exact get?_set_of_ne _ _ _ _ (Ne.symm hj)
    · rw [get?_set_of_ne _ _ _ _ (fun h => hi h.symm)]
  · intro ts i j
    exact replicate_cell_empty _ _ i j

/-- C5 witness: in the initial `(3, 3)` engine state the cursor cell exists;
painting there yields a canvas whose cell `(0, 0)` reads `White` while cell
`(1, 1)` is unchanged. -/
theorem paint_sets_exactly_cursor_cell_witness :
    ∃ cv : Canvas,
      processEvent (Paint2D.new (3, 3)) (PEvent.key PKey.space false)
        = some { Paint2D.new (3, 3) with color_canvas := cv }
      ∧ cv.cell? 0 0 = some (some PColor.white)
      ∧ cv.cell? 1 1 = (Paint2D.new (3, 3)).color_canvas.cell? 1 1 := by
  obtain ⟨cv, h1, h2, h3, _⟩ := paint_sets_exactly_cursor_cell
    (Paint2D.new (3, 3)) false (List.replicate 3 none) (by rfl) (by decide)
  exact ⟨cv, h1, h2, h3 1 1 (Or.inl (by decide))⟩

theorem left_color (c : PaintCursor) (d : Nat) : (c.left d).color = c.color := by
  unfold PaintCursor.left
  split <;> rfl

theorem right_color (c : PaintCursor) (d : Nat) : (c.right d).color = c.color := by
  unfold PaintCursor.right
  split <;> rfl

theorem up_color (c : PaintCursor) (d : Nat) : (c.up d).color = c.color := by
  unfold PaintCursor.up
  split <;> rfl

theorem down_color (c : PaintCursor) (d : Nat) : (c.down d).color = c.color := by
  unfold PaintCursor.down
  split <;> rfl

theorem processEvent_running (s s2 : Paint2D) (e : PEvent)
    (h : processEvent s e = some s2) :
    s2.running = s.running ∨ s2.running = false := by
  cases e with
  | key code ctrl =>
    cases code with
    | q =>
        simp only [processEvent] at h
        cases Option.some.inj h
        right; rfl
    | c =>
        simp only [processEvent] at h
        by_cases hc : ctrl = true
        · rw [if_pos hc] at h
          cases Option.some.inj h
          right; rfl
        · rw [if_neg hc] at h
          cases Option.some.inj h
          left; rfl
    | left =>
        simp only [processEvent] at h
        cases Option.some.inj h
        left; rfl
    | right =>
        simp only [processEvent] at h
        cases Option.some.inj h
        left; rfl
    | up =>
        simp only [processEvent] at h
        cases Option.some.inj h
        left; rfl
    | down =>
        simp only [processEvent] at h
        cases Option.some.inj h
        left; rfl
    | space =>
        simp only [processEvent] at h
        rw [Option.map_eq_some'] at h
        obtain ⟨cv, _, hf⟩ := h
        cases hf
        left; rfl
    | otherKey =>
        simp only [processEvent] at h
        cases Option.some.inj h
        left; rfl
  | resize cols rows =>
      simp only [processEvent] at h
      cases Option.some.inj h
      left; rfl
  | other =>
      simp only [processEvent] at h
      cases Option.some.inj h
      left; rfl

/-- C6: the quit key (`'q'`) and Ctrl+C each drive `running` from `true` to
`false`; no successfully processed event ever turns `running` back on; and
once `running` is `false` the run loop processes no further input — the
whole state (cursor, canvas, extent) stays exactly as it is. -/
theorem quit_is_absorbing (s : Paint2D) (e : PEvent) (bs : List (List PEvent)) :
    (∀ m : Bool, processEvent s (PEvent.key PKey.q m) = some { s with running := false })
    ∧ processEvent s (PEvent.key PKey.c true) = some { s with running := false }
    ∧ (∀ s2 : Paint2D, s.running = false → processEvent s e = some s2 →
        s2.running = false)
    ∧ (s.running = false → run s bs = some s) := by
  refine ⟨fun m => rfl, rfl, ?_, ?_⟩
  · intro s2 hr hp
    rcases processEvent_running s s2 e hp with h | h
    · rw [h, hr]
    · exact h
  · intro hr
    cases bs with
    | nil => rfl
    | cons b bs2 => simp [run, hr]

/-- C6 witness: from a stopped state, further batches of movement and paint
events leave the state untouched. -/
theorem quit_is_absorbing_witness :
    run stoppedState
        [[PEvent.key PKey.left false], [PEvent.key PKey.space false]]
      = some stoppedState :=
  (quit_is_absorbing stoppedState PEvent.other
    [[PEvent.key PKey.left false], [PEvent.key PKey.space false]]).2.2.2 rfl

/-- C7 counterexample: `setup` enters the alternate screen, but the teardown
that runs on exit does not leave it on any path — the source's
`LeaveAlternateScreen` command is commented out in `Drop`. -/
theorem alternate_screen_never_released :
    TermCmd.enterAlternateScreen ∈ setupCmds
    ∧ TermCmd.leaveAlternateScreen ∉ exitCmds ExitPath.normalQuit
    ∧ TermCmd.leaveAlternateScreen ∉ exitCmds ExitPath.interrupt
    ∧ TermCmd.leaveAlternateScreen ∉ exitCmds ExitPath.ioError := by
  exact ⟨by decide, by decide, by decide, by decide⟩

/-- C7 (amended): on every exit path — normal quit, interrupt, or a
propagated fatal terminal I/O error — the teardown (Rust runs `Drop` on each
of them) disables raw input mode and restores the cursor (shown, default
shape), but it does not leave the alternate screen acquired during setup. -/
theorem teardown_releases_raw_mode_only (p : ExitPath) :
    TermCmd.disableRawMode ∈ exitCmds p
    ∧ TermCmd.cursorShow ∈ exitCmds p
    ∧ TermCmd.setCursorStyleDefaultUserShape ∈ exitCmds p
    ∧ TermCmd.leaveAlternateScreen ∉ exitCmds p := by
  cases p <;> exact ⟨by decide, by decide, by decide, by decide⟩

/-- C8: `redraw_screen` is a pure full repaint: it leaves the engine state
exactly as it found it, so redrawing a second time with no intervening input
processing renders the identical frame (the same command sequence). -/
theorem redraw_twice_same_frame (s : Paint2D) :
    (redrawStep s).2 = s
    ∧ (redrawStep ((redrawStep s).2)).1 = (redrawStep s).1 :=
  ⟨rfl, rfl⟩

/-- C9: redraw reads the canvas only through checked access and never
indexes out of bounds: a coordinate with no canvas entry renders exactly the
same blank cell as an empty (transparent) cell, and the cursor glyph's
starting column is `cursor.row - 1` clamped to 0 when the cursor is at
`row = 0` (the `u16` range bound on `row` reflects the source's integer
type). -/
theorem redraw_checked_and_clamped (s : Paint2D) (r c : Nat)
    (h16 : s.cursor.row < 65536) :
    (s.color_canvas.length ≤ r →
      cellCmds s.color_canvas r c = [RenderCmd.printStr " "])
    ∧ (∀ rowL : List (Option PColor), s.color_canvas.get? r = some rowL →
        rowL.length ≤ c →
        cellCmds s.color_canvas r c = [RenderCmd.printStr " "])
    ∧ (∀ rowL : List (Option PColor), s.color_canvas.get? r = some rowL →
        rowL.get? c = some none →
        cellCmds s.color_canvas r c = [RenderCmd.printStr " "])
    ∧ cursorGlyphCol s.cursor.row
        = (if s.cursor.row = 0 then 0 else s.cursor.row - 1)
    ∧ s.draw_cursor.head?
        = some (RenderCmd.moveTo (cursorGlyphCol s.cursor.row) s.cursor.col) := by
  refine ⟨?_, ?_, ?_, ?_, rfl⟩
  · intro hr
    unfold cellCmds
    rw [List.get?_eq_none.mpr hr]
    rfl
  · intro rowL h1 h2
    unfold cellCmds
    rw [show ((s.color_canvas.get? r).bind fun row => row.get? c) = none by
      rw [h1]
      simpa using List.get?_eq_none.mpr h2]
    rfl
  · intro rowL h1 h2
    unfold cellCmds
    rw [show ((s.color_canvas.get? r).bind fun row => row.get? c) = some none by
      rw [h1]
      simpa using h2]
    rfl
  · dsimp only [cursorGlyphCol]
    split
    · rename_i hcond
      have h0 : s.cursor.row = 0 := by omega
      simp [h0]
    · rename_i hcond
      have h0 : ¬ s.cursor.row = 0 := by omega
      rw [if_neg h0]
      omega

/-- C9 witness: in the initial `(2, 2)` state, row 5 is outside the 1-row
canvas yet renders as a plain blank, and the cursor glyph column at
`row = 0` is clamped to 0. -/
theorem redraw_checked_and_clamped_witness :
    cellCmds (Paint2D.new (2, 2)).color_canvas 5 0 = [RenderCmd.printStr " "]
    ∧ cursorGlyphCol (Paint2D.new (2, 2)).cursor.row
        = (if (Paint2D.new (2, 2)).cursor.row = 0 then 0
           else (Paint2D.new (2, 2)).cursor.row - 1) := by
  have h := redraw_checked_and_clamped (Paint2D.new (2, 2)) 5 0 (by decide)
  exact ⟨h.1 (by decide), h.2.2.2.1⟩

/-- C10: the paint color is fixed: in every reachable engine state
`cursor.color` is `White` and every painted canvas cell holds `some White` —
no input event ever selects another color. -/
theorem color_always_white (s : Paint2D) (h : Reachable s) :
    s.cursor.color = PColor.white
    ∧ ∀ rowL ∈ s.color_canvas, ∀ cell ∈ rowL,
        cell = none ∨ cell = some PColor.white := by
  induction h with
  | init ts =>
      refine ⟨rfl, ?_⟩
      intro rowL hrowL cell hcell
      have h1 := List.eq_of_mem_replicate hrowL
      subst h1
      left
      exact List.eq_of_mem_replicate hcell
  | step hre hp ih =>
      rename_i s1 s2 e
      obtain ⟨ihc, ihcv⟩ := ih
      cases e with
      | key code ctrl =>
        cases code with
        | q =>
            simp only [processEvent] at hp
            cases Option.some.inj hp
            exact ⟨ihc, ihcv⟩
        | c =>
            simp only [processEvent] at hp
            by_cases hc : ctrl = true
            · rw [if_pos hc] at hp
              cases Option.some.inj hp
              exact ⟨ihc, ihcv⟩
            · rw [if_neg hc] at hp
              cases Option.some.inj hp
              exact ⟨ihc, ihcv⟩
        | left =>
            simp only [processEvent] at hp
            cases Option.some.inj hp
            exact ⟨(left_color _ _).trans ihc, ihcv⟩
        | right =>
            simp only [processEvent] at hp
            cases Option.some.inj hp
            exact ⟨(right_color _ _).trans ihc, ihcv⟩
        | up =>
            simp only [processEvent] at hp
            cases Option.some.inj hp
            exact ⟨(up_color _ _).trans ihc, ihcv⟩
        | down =>
            simp only [processEvent] at hp
            cases Option.some.inj hp
            exact ⟨(down_color _ _).trans ihc, ihcv⟩
        | space =>
            simp only [processEvent] at hp
            rw [Option.map_eq_some'] at hp
            obtain ⟨cv, hcv, hf⟩ := hp
            cases hf
            unfold Canvas.setCell? at hcv
            refine ⟨ihc, ?_⟩
            cases hget : s1.color_canvas.get? s1.cursor.col with
            | none =>
                rw [hget] at hcv
                exact absurd hcv (by simp)
            | some rw0 =>
                rw [hget] at hcv
                dsimp only at hcv
                by_cases hlt : s1.cursor.row < rw0.length
                · rw [if_pos hlt] at hcv
                  cases Option.some.inj hcv
                  intro rowL hrowL cell hcell
                  rcases List.mem_or_eq_of_mem_set hrowL with hmem | heq
                  · exact ihcv rowL hmem cell hcell
                  · subst heq
                    rcases List.mem_or_eq_of_mem_set hcell with hmem2 | heq2
                    · exact ihcv rw0 (List.get?_mem hget) cell hmem2
                    · subst heq2
                      right
                      rw [ihc]
                · rw [if_neg hlt] at hcv
                  exact absurd hcv (by simp)
        | otherKey =>
            simp only [processEvent] at hp
            cases Option.some.inj hp
            exact ⟨ihc, ihcv⟩
      | resize cols rows =>
          simp only [processEvent] at hp
          cases Option.some.inj hp
          exact ⟨ihc, ihcv⟩
      | other =>
          simp only [processEvent] at hp
          cases Option.some.inj hp
          exact ⟨ihc, ihcv⟩

/-- C10 witness: the color invariant at the concrete reachable state
`Paint2D.new (4, 4)`. -/
theorem color_always_white_witness :
    (Paint2D.new (4, 4)).cursor.color = PColor.white
    ∧ ∀ rowL ∈ (Paint2D.new (4, 4)).color_canvas, ∀ cell ∈ rowL,
        cell = none ∨ cell = some PColor.white :=
  color_always_white (Paint2D.new (4, 4)) (Reachable.init (4, 4))
